import Mathlib

/-!
Verification development for the scientific extension
(`pystac/extensions/scientific.py`): DOI utilities, the `Publication`
value entity, the cite-as link synchronizer and the two extension
adapters (item-scoped and collection-scoped), modelled as pure
functions over an explicit host state.
-/

set_option maxRecDepth 4000

/-! ## Constants (source lines 20-31) -/

def PREFIX : String := "sci:"

def DOI : String := PREFIX ++ "doi"

def CITATION : String := PREFIX ++ "citation"

def PUBLICATIONS : String := PREFIX ++ "publications"

def CITE_AS : String := "cite-as"

def DOI_URL_BASE : String := "https://doi.org/"

/-! ## DOI validity (source lines 30, 38-39)

`is_doi_valid(doi)` is `bool(re.match(r'10[.][0-9]{4}([.][0-9]+)*/.+', doi))`.
The regex is translated to a deterministic scanner.  Greedy matching of
`([.][0-9]+)*` is deterministic here because backtracking can never help:
a group's digits are followed by either `.` or `/` in any successful
continuation, and neither is a digit, so the greedy digit run is forced;
likewise giving back a whole group leaves a `.` where `/` is required.
Python's `.` matches any character except a line feed. -/

/-- Scanner state for `([.][0-9]+)*`: either at a group boundary or inside
the digit run of a group. -/
inductive GMode
  | start
  | afterDigit

/-- Consume the maximal prefix of the input matching `([.][0-9]+)*`
(greedily, as the regex engine does) and return the rest. -/
def groupsScan : GMode → List Char → List Char
  | _, [] => []
  | GMode.start, c :: r =>
    if c = '.' then
      match r with
      | d :: r2 => if d.isDigit then groupsScan GMode.afterDigit r2 else c :: r
      | [] => c :: r
    else c :: r
  | GMode.afterDigit, c :: r =>
    if c.isDigit then groupsScan GMode.afterDigit r
    else if c = '.' then
      match r with
      | d :: r2 => if d.isDigit then groupsScan GMode.afterDigit r2 else c :: r
      | [] => c :: r
    else c :: r

/-- `is_doi_valid` (source lines 38-39): match `10[.][0-9]{4}([.][0-9]+)*/.+`
anchored at position 0, trailing input permitted. -/
def is_doi_valid (doi : String) : Bool :=
  match doi.data with
  | '1' :: '0' :: '.' :: a :: b :: c :: d :: rest =>
    a.isDigit && b.isDigit && c.isDigit && d.isDigit &&
      (match groupsScan GMode.start rest with
       | '/' :: e :: _ => e != '\n'
       | _ => false)
  | _ => false

/-! ## DOI to URL (source lines 42-43)

`doi_to_url(doi)` is `DOI_URL_BASE + urllib.parse.quote(doi)`.
`quote` with its default `safe='/'` encodes the string as UTF-8 and maps
each byte to itself when it is an ASCII letter, digit, one of `_.-~`, or
`/`, and to `%XX` (uppercase hex) otherwise. -/

/-- Standard UTF-8 encoding of a Unicode scalar value. -/
def utf8EncodeCharNat (n : Nat) : List Nat :=
  if n < 128 then [n]
  else if n < 2048 then [192 + n / 64, 128 + n % 64]
  else if n < 65536 then [224 + n / 4096, 128 + (n / 64) % 64, 128 + n % 64]
  else [240 + n / 262144, 128 + (n / 4096) % 64, 128 + (n / 64) % 64, 128 + n % 64]

/-- The UTF-8 bytes of a string, as naturals. -/
def utf8Bytes (s : String) : List Nat :=
  s.data.flatMap (fun c => utf8EncodeCharNat c.toNat)

/-- Bytes `urllib.parse.quote` never escapes regardless of `safe`:
ASCII letters, digits, and `_ . - ~`. -/
def isAlwaysSafeByte (b : Nat) : Bool :=
  (65 ≤ b && b ≤ 90) || (97 ≤ b && b ≤ 122) || (48 ≤ b && b ≤ 57) ||
    b == 95 || b == 46 || b == 45 || b == 126

/-- Uppercase hex digit for a value below 16. -/
def hexUpper (n : Nat) : Char :=
  if n < 10 then Char.ofNat (48 + n) else Char.ofNat (55 + n)

/-- One byte under `urllib.parse.quote(-, safe='/')`: kept literally when
always-safe or `/` (byte 47), else percent-encoded. -/
def quoteByte (b : Nat) : List Char :=
  if isAlwaysSafeByte b || b == 47 then [Char.ofNat b]
  else ['%', hexUpper (b / 16), hexUpper (b % 16)]

/-- `urllib.parse.quote(s)` with the default `safe='/'`. -/
def quote (s : String) : String :=
  String.mk ((utf8Bytes s).flatMap quoteByte)

/-- `doi_to_url` (source lines 42-43). -/
def doi_to_url (doi : String) : String :=
  DOI_URL_BASE ++ quote doi

/-! ## Publication (source lines 46-69)

`to_dict` builds a fresh two-key mapping (`copy.deepcopy` of a dict of
immutable strings, i.e. a value copy); `from_dict` reads `d['doi']`
and `d['citation']`, raising `KeyError` (here: `none`) when absent. -/

structure Publication where
  doi : String
  citation : String
deriving DecidableEq

/-- Lookup in a string-keyed mapping (Python `d[k]` as an `Option`). -/
def dictGet : List (String × String) → String → Option String
  | [], _ => none
  | (k2, v) :: rest, k => if k2 = k then some v else dictGet rest k

def Publication.to_dict (p : Publication) : List (String × String) :=
  [("doi", p.doi), ("citation", p.citation)]

def Publication.from_dict (d : List (String × String)) : Option Publication :=
  match dictGet d "doi", dictGet d "citation" with
  | some a, some b => some { doi := a, citation := b }
  | _, _ => none

/-- `Publication.__eq__` (source lines 52-56): structural equality of the
two fields. -/
def pubEq (a b : Publication) : Bool :=
  a.doi == b.doi && a.citation == b.citation

/-! ## Links and the link synchronizer (source lines 68-79) -/

structure Link where
  rel : String
  target : String
deriving DecidableEq

/-- `Publication.get_link` (source lines 68-69). -/
def Publication.get_link (p : Publication) : Link :=
  { rel := CITE_AS, target := doi_to_url p.doi }

/-- The loop of `remove_link`: skip links whose relation is not `cite-as`;
delete the first `cite-as` link whose target is `url` and stop. -/
def removeLinkGo : List Link → String → List Link
  | [], _ => []
  | l :: rest, url =>
    if l.rel ≠ CITE_AS then l :: removeLinkGo rest url
    else if l.target = url then rest
    else l :: removeLinkGo rest url

/-- `remove_link` (source lines 72-79), as the value of the mutated list. -/
def remove_link (links : List Link) (pub : Publication) : List Link :=
  removeLinkGo links (doi_to_url pub.doi)

/-! ## Host state

The host (`Item` / `Collection`) is consumed through two capabilities: a
string-keyed property bag (`item.properties` / `collection.extra_fields`,
a Python dict) and an ordered link sequence (`item.links` /
`collection.links`).  The bag holds either a string (for `sci:doi`,
`sci:citation`) or a list of serialized publication mappings (for
`sci:publications`). -/

inductive PropVal
  | vStr (s : String)
  | vPubs (l : List (List (String × String)))
deriving DecidableEq

/-- Python dict lookup `bag.get(k)` on an association list with unique
keys. -/
def bagGet : List (String × PropVal) → String → Option PropVal
  | [], _ => none
  | (k2, v) :: rest, k => if k2 = k then some v else bagGet rest k

/-- Python dict assignment `bag[k] = v`: replace in place when the key is
present, append otherwise. -/
def bagSet : List (String × PropVal) → String → PropVal → List (String × PropVal)
  | [], k, v => [(k, v)]
  | (k2, v2) :: rest, k, v =>
    if k2 = k then (k, v) :: rest else (k2, v2) :: bagSet rest k v

/-- Python dict deletion `del bag[k]`. -/
def bagDel : List (String × PropVal) → String → List (String × PropVal)
  | [], _ => []
  | (k2, v2) :: rest, k =>
    if k2 = k then bagDel rest k else (k2, v2) :: bagDel rest k

structure HostState where
  properties : List (String × PropVal)
  links : List Link
deriving DecidableEq

/-- Modelled from the spec: the host capability `add_link`
(`Item.add_link` / `Collection.add_link`, whose code is not under
`src/`) appends the link to the host's ordered link sequence
(LinkSequence: "ordered, append(link), remove-at(index)"). -/
def HostState.add_link (st : HostState) (l : Link) : HostState :=
  { st with links := st.links ++ [l] }

/-- Remove the first occurrence of `d` in a Python list (`list.remove`,
with the not-found error handled at the call site). -/
def removeFirst : List (List (String × String)) → List (String × String) →
    List (List (String × String))
  | [], _ => []
  | x :: rest, d => if x = d then rest else x :: removeFirst rest d

/-- The raw string read back by a property getter; the unreachable
non-string case defaults to the empty string. -/
def strOfProp : Option PropVal → String
  | some (PropVal.vStr s) => s
  | _ => ""

/-- Outcome of `remove_publication`: normal return, `KeyError` escaping
from `Publication.from_dict` during the clear-all read, or `ValueError`
escaping from `list.remove` (not-found).  The error outcomes carry the
host state as already mutated when the exception is raised. -/
inductive RemoveOutcome
  | ok (st : HostState)
  | keyError (st : HostState)
  | notFound (st : HostState)
deriving DecidableEq

def RemoveOutcome.state : RemoveOutcome → HostState
  | RemoveOutcome.ok st => st
  | RemoveOutcome.keyError st => st
  | RemoveOutcome.notFound st => st

/-! ## Item-scoped adapter (`ScientificItemExt`, source lines 82-152) -/

namespace ScientificItemExt

/-- `doi` getter (source lines 106-108): `item.properties.get(DOI)`. -/
def get_doi (st : HostState) : Option PropVal :=
  bagGet st.properties DOI

/-- `doi` setter (source lines 110-114): write the field, read it back to
format the URL, and append a `cite-as` link. -/
def set_doi (st : HostState) (v : String) : HostState :=
  let st1 : HostState := { st with properties := bagSet st.properties DOI (PropVal.vStr v) }
  let url := doi_to_url (strOfProp (bagGet st1.properties DOI))
  st1.add_link { rel := CITE_AS, target := url }

/-- `citation` getter (source lines 116-118). -/
def get_citation (st : HostState) : Option PropVal :=
  bagGet st.properties CITATION

/-- `citation` setter (source lines 120-122): writes the field only. -/
def set_citation (st : HostState) (v : String) : HostState :=
  { st with properties := bagSet st.properties CITATION (PropVal.vStr v) }

/-- The stored value of `sci:publications`, with the getter's default
`[]` when absent. -/
def pubsRaw (st : HostState) : List (List (String × String)) :=
  match bagGet st.properties PUBLICATIONS with
  | some (PropVal.vPubs l) => l
  | _ => []

/-- `publications` getter (source lines 124-126): deserialize every
stored mapping, `none` when a mapping lacks a key (`KeyError`). -/
def get_publications (st : HostState) : Option (List Publication) :=
  (pubsRaw st).mapM Publication.from_dict

/-- `publications` setter (source lines 128-132): overwrite the field
with the element-wise serialization, then append one `cite-as` link per
element. -/
def set_publications (st : HostState) (v : List Publication) : HostState :=
  let st1 : HostState :=
    { st with properties := bagSet st.properties PUBLICATIONS (PropVal.vPubs (v.map Publication.to_dict)) }
  v.foldl (fun s pub => s.add_link pub.get_link) st1

/-- `apply` (source lines 87-96): each setter runs only when its argument
is truthy (a non-`None`, non-empty string or list). -/
def apply (st : HostState) (doi : Option String) (citation : Option String)
    (publications : Option (List Publication)) : HostState :=
  let st1 := match doi with
    | some s => if s = "" then st else set_doi st s
    | none => st
  let st2 := match citation with
    | some s => if s = "" then st1 else set_citation st1 s
    | none => st1
  match publications with
  | some l => if l = [] then st2 else set_publications st2 l
  | none => st2

/-- `remove_publication` (source lines 134-152).  The clear-all branch
reads `self.item.ext.scientific.publications`; the extension facade
`item.ext.scientific` is modelled from the spec ("the adapter is created
fresh each time a caller accesses the extension facade", its code is not
under `src/`) as this very adapter bound to the same host, so the read
is `get_publications`. -/
def remove_publication (st : HostState) (publication : Option Publication) : RemoveOutcome :=
  if (bagGet st.properties PUBLICATIONS).isSome = false then RemoveOutcome.ok st
  else
    match publication with
    | none =>
      match get_publications st with
      | none => RemoveOutcome.keyError st
      | some pubs =>
        let st2 := pubs.foldl (fun s p => { s with links := remove_link s.links p }) st
        RemoveOutcome.ok { st2 with properties := bagDel st2.properties PUBLICATIONS }
    | some pub =>
      let st2 : HostState := { st with links := remove_link st.links pub }
      let stored := pubsRaw st2
      let d := Publication.to_dict pub
      if d ∈ stored then
        let stored2 := removeFirst stored d
        if stored2 = [] then
          RemoveOutcome.ok { st2 with properties := bagDel st2.properties PUBLICATIONS }
        else
          RemoveOutcome.ok { st2 with properties := bagSet st2.properties PUBLICATIONS (PropVal.vPubs stored2) }
      else RemoveOutcome.notFound st2

end ScientificItemExt

/-! ## Collection-scoped adapter (`ScientificCollectionExt`, source lines
155-228); identical logic over `collection.extra_fields` and
`collection.links`. -/

namespace ScientificCollectionExt

/-- `doi` getter (source lines 180-182). -/
def get_doi (st : HostState) : Option PropVal :=
  bagGet st.properties DOI

/-- `doi` setter (source lines 184-188). -/
def set_doi (st : HostState) (v : String) : HostState :=
  let st1 : HostState := { st with properties := bagSet st.properties DOI (PropVal.vStr v) }
  let url := doi_to_url (strOfProp (bagGet st1.properties DOI))
  st1.add_link { rel := CITE_AS, target := url }

/-- `citation` getter (source lines 190-192). -/
def get_citation (st : HostState) : Option PropVal :=
  bagGet st.properties CITATION

/-- `citation` setter (source lines 194-196). -/
def set_citation (st : HostState) (v : String) : HostState :=
  { st with properties := bagSet st.properties CITATION (PropVal.vStr v) }

/-- The stored value of `sci:publications` with default `[]`. -/
def pubsRaw (st : HostState) : List (List (String × String)) :=
  match bagGet st.properties PUBLICATIONS with
  | some (PropVal.vPubs l) => l
  | _ => []

/-- `publications` getter (source lines 198-202). -/
def get_publications (st : HostState) : Option (List Publication) :=
  (pubsRaw st).mapM Publication.from_dict

/-- `publications` setter (source lines 204-208). -/
def set_publications (st : HostState) (v : List Publication) : HostState :=
  let st1 : HostState :=
    { st with properties := bagSet st.properties PUBLICATIONS (PropVal.vPubs (v.map Publication.to_dict)) }
  v.foldl (fun s pub => s.add_link pub.get_link) st1

/-- `apply` (source lines 160-169). -/
def apply (st : HostState) (doi : Option String) (citation : Option String)
    (publications : Option (List Publication)) : HostState :=
  let st1 := match doi with
    | some s => if s = "" then st else set_doi st s
    | none => st
  let st2 := match citation with
    | some s => if s = "" then st1 else set_citation st1 s
    | none => st1
  match publications with
  | some l => if l = [] then st2 else set_publications st2 l
  | none => st2

/-- `remove_publication` (source lines 210-228); the clear-all branch
reads `self.collection.ext.scientific.publications`, modelled from the
spec as for the item adapter. -/
def remove_publication (st : HostState) (publication : Option Publication) : RemoveOutcome :=
  if (bagGet st.properties PUBLICATIONS).isSome = false then RemoveOutcome.ok st
  else
    match publication with
    | none =>
      match get_publications st with
      | none => RemoveOutcome.keyError st
      | some pubs =>
        let st2 := pubs.foldl (fun s p => { s with links := remove_link s.links p }) st
        RemoveOutcome.ok { st2 with properties := bagDel st2.properties PUBLICATIONS }
    | some pub =>
      let st2 : HostState := { st with links := remove_link st.links pub }
      let stored := pubsRaw st2
      let d := Publication.to_dict pub
      if d ∈ stored then
        let stored2 := removeFirst stored d
        if stored2 = [] then
          RemoveOutcome.ok { st2 with properties := bagDel st2.properties PUBLICATIONS }
        else
          RemoveOutcome.ok { st2 with properties := bagSet st2.properties PUBLICATIONS (PropVal.vPubs stored2) }
      else RemoveOutcome.notFound st2

end ScientificCollectionExt

/-! ## Helper lemmas: property bag -/

theorem bagGet_bagSet_same (bag : List (String × PropVal)) (k : String) (v : PropVal) :
    bagGet (bagSet bag k v) k = some v := by
  induction bag with
  | nil => simp [bagGet, bagSet]
  | cons hd tl ih =>
    obtain ⟨k2, v2⟩ := hd
    by_cases h : k2 = k
    · simp [bagGet, bagSet, h]
    · simp [bagGet, bagSet, h, ih]

theorem bagGet_bagSet_ne (bag : List (String × PropVal)) (k k2 : String) (v : PropVal)
    (h : k2 ≠ k) : bagGet (bagSet bag k v) k2 = bagGet bag k2 := by
  induction bag with
  | nil => simp [bagGet, bagSet, Ne.symm h]
  | cons hd tl ih =>
    obtain ⟨k3, v3⟩ := hd
    by_cases h2 : k3 = k
    · subst h2
      simp [bagGet, bagSet, Ne.symm h]
    · simp [bagGet, bagSet, h2, ih]

theorem bagGet_bagDel_same (bag : List (String × PropVal)) (k : String) :
    bagGet (bagDel bag k) k = none := by
  induction bag with
  | nil => simp [bagGet, bagDel]
  | cons hd tl ih =>
    obtain ⟨k2, v2⟩ := hd
    by_cases h : k2 = k <;> simp [bagGet, bagDel, h, ih]

/-! ## Helper lemmas: link synchronizer -/

theorem removeLinkGo_no_match (links : List Link) (url : String)
    (h : ∀ l ∈ links, l.rel ≠ CITE_AS ∨ l.target ≠ url) :
    removeLinkGo links url = links := by
  induction links with
  | nil => rfl
  | cons hd tl ih =>
    have hhd := h hd (by simp)
    have htl : ∀ l ∈ tl, l.rel ≠ CITE_AS ∨ l.target ≠ url := fun l hl => h l (by simp [hl])
    rcases hhd with h1 | h1
    · simp [removeLinkGo, h1, ih htl]
    · by_cases h2 : hd.rel ≠ CITE_AS <;> simp [removeLinkGo, h1, h2, ih htl]

theorem removeLinkGo_first (l1 : List Link) (lk : Link) (l2 : List Link) (url : String)
    (hrel : lk.rel = CITE_AS) (htar : lk.target = url)
    (hbefore : ∀ x ∈ l1, x.rel ≠ CITE_AS ∨ x.target ≠ url) :
    removeLinkGo (l1 ++ lk :: l2) url = l1 ++ l2 := by
  induction l1 with
  | nil => simp [removeLinkGo, hrel, htar]
  | cons hd tl ih =>
    have hhd := hbefore hd (by simp)
    have htl : ∀ x ∈ tl, x.rel ≠ CITE_AS ∨ x.target ≠ url := fun x hx => hbefore x (by simp [hx])
    rcases hhd with h1 | h1
    · simp [removeLinkGo, h1, ih htl]
    · by_cases h2 : hd.rel ≠ CITE_AS <;> simp [removeLinkGo, h1, h2, ih htl]

/-! ## Helper lemmas: list removal and fold frames -/

theorem removeFirst_not_mem_append (l1 l2 : List (List (String × String)))
    (d : List (String × String)) (h : d ∉ l1) :
    removeFirst (l1 ++ d :: l2) d = l1 ++ l2 := by
  induction l1 with
  | nil => simp [removeFirst]
  | cons hd tl ih =>
    have hne : hd ≠ d := fun e => h (by simp [e])
    have htl : d ∉ tl := fun e => h (by simp [e])
    simp [removeFirst, hne, ih htl]

theorem foldl_add_link_properties (v : List Publication) (s0 : HostState) :
    (v.foldl (fun s pub => s.add_link pub.get_link) s0).properties = s0.properties := by
  induction v generalizing s0 with
  | nil => rfl
  | cons hd tl ih =>
    rw [List.foldl_cons, ih]
    rfl

theorem foldl_remove_link_properties (pubs : List Publication) (s0 : HostState) :
    (pubs.foldl (fun s p => { s with links := remove_link s.links p }) s0).properties
      = s0.properties := by
  induction pubs generalizing s0 with
  | nil => rfl
  | cons hd tl ih =>
    rw [List.foldl_cons, ih]

theorem key_facts : DOI ≠ CITATION ∧ DOI ≠ PUBLICATIONS ∧ CITATION ≠ PUBLICATIONS := by decide

/-! ## Helper lemmas: quoting -/

theorem utf8Bytes_append (s t : String) : utf8Bytes (s ++ t) = utf8Bytes s ++ utf8Bytes t := by
  simp [utf8Bytes, String.data_append]

theorem string_mk_append (a b : List Char) : String.mk a ++ String.mk b = String.mk (a ++ b) := rfl

theorem quote_append (s t : String) : quote (s ++ t) = quote s ++ quote t := by
  simp [quote, utf8Bytes_append, string_mk_append]

/-! ## Claims -/

/-- C3: `remove_link(links, pub)` scans `links` in order and deletes
exactly the first link whose relation is `cite-as` and whose target
equals `doi_to_url(pub.doi)`, stopping after that first match; if no
link satisfies both conditions the list is unchanged and no error is
raised. -/
theorem C3_remove_link_first_match (links : List Link) (pub : Publication) :
    ((∀ l ∈ links, l.rel ≠ CITE_AS ∨ l.target ≠ doi_to_url pub.doi) →
      remove_link links pub = links) ∧
    (∀ l1 lk l2, links = l1 ++ lk :: l2 → lk.rel = CITE_AS →
      lk.target = doi_to_url pub.doi →
      (∀ x ∈ l1, x.rel ≠ CITE_AS ∨ x.target ≠ doi_to_url pub.doi) →
      remove_link links pub = l1 ++ l2) := by
  constructor
  · intro h
    exact removeLinkGo_no_match _ _ h
  · intro l1 lk l2 he hrel htar hbefore
    subst he
    exact removeLinkGo_first l1 lk l2 _ hrel htar hbefore

theorem C3_witness :
    remove_link [Link.mk "self" "a"] (Publication.mk "10.1000/182" "c") = [Link.mk "self" "a"] ∧
    remove_link
        [Link.mk "self" "a", Link.mk "cite-as" (doi_to_url "10.1000/182"),
          Link.mk "cite-as" (doi_to_url "10.1000/182")]
        (Publication.mk "10.1000/182" "c") =
      [Link.mk "self" "a", Link.mk "cite-as" (doi_to_url "10.1000/182")] :=
  ⟨(C3_remove_link_first_match _ _).1 (by decide),
   (C3_remove_link_first_match _ _).2 [Link.mk "self" "a"]
     (Link.mk "cite-as" (doi_to_url "10.1000/182"))
     [Link.mk "cite-as" (doi_to_url "10.1000/182")] (by decide) (by decide) rfl (by decide)⟩

/-- C4: setting the `doi` property writes `v` to `sci:doi` and appends
exactly one new `cite-as` link with target `doi_to_url(v)`, without
searching for or removing existing links; the link count grows by 1 per
set, and setting the same DOI twice on a fresh host yields two
`cite-as` links with identical target (both adapter variants). -/
theorem C4_set_doi_appends (st : HostState) (v : String) :
    ScientificItemExt.set_doi st v =
      { properties := bagSet st.properties DOI (PropVal.vStr v),
        links := st.links ++ [{ rel := CITE_AS, target := doi_to_url v }] } ∧
    ScientificCollectionExt.set_doi st v =
      { properties := bagSet st.properties DOI (PropVal.vStr v),
        links := st.links ++ [{ rel := CITE_AS, target := doi_to_url v }] } ∧
    (ScientificItemExt.set_doi st v).links.length = st.links.length + 1 ∧
    (ScientificItemExt.set_doi (ScientificItemExt.set_doi { properties := [], links := [] } v) v).links =
      [{ rel := CITE_AS, target := doi_to_url v }, { rel := CITE_AS, target := doi_to_url v }] := by
  have hitem : ∀ (s : HostState) (w : String),
      ScientificItemExt.set_doi s w =
        { properties := bagSet s.properties DOI (PropVal.vStr w),
          links := s.links ++ [{ rel := CITE_AS, target := doi_to_url w }] } := by
    intro s w
    simp [ScientificItemExt.set_doi, HostState.add_link, bagGet_bagSet_same, strOfProp]
  refine ⟨hitem st v, ?_, ?_, ?_⟩
  · simp [ScientificCollectionExt.set_doi, HostState.add_link, bagGet_bagSet_same, strOfProp]
  · rw [hitem]
    simp
  · rw [hitem, hitem]
    simp

/-- C6: `doi_to_url(doi)` is the fixed prefix `https://doi.org/`
followed by the percent-encoding of `doi` that leaves `/` unescaped
(`quote` distributes over `/` keeping it literal); in particular
`doi_to_url("10.1000/182") = "https://doi.org/10.1000/182"`. -/
theorem C6_doi_to_url (doi : String) :
    doi_to_url doi = "https://doi.org/" ++ quote doi ∧
    (∀ s t : String, quote (s ++ "/" ++ t) = quote s ++ "/" ++ quote t) ∧
    doi_to_url "10.1000/182" = "https://doi.org/10.1000/182" := by
  refine ⟨rfl, ?_, by decide⟩
  intro s t
  have h : quote "/" = "/" := by decide
  rw [quote_append, quote_append, h]

/-- C7: serialization round trip: `from_dict(to_dict(Publication(doi,
citation)))` recovers the publication exactly, and `__eq__` is
structural equality of the two fields.  `to_dict` deep-copies a mapping
of immutable strings, so the returned mapping shares no state with the
entity. -/
theorem C7_roundtrip (doi citation : String) :
    Publication.from_dict (Publication.to_dict { doi := doi, citation := citation }) =
      some { doi := doi, citation := citation } ∧
    (∀ p q : Publication, pubEq p q = true ↔ p = q) := by
  refine ⟨rfl, ?_⟩
  intro p q
  cases p
  cases q
  simp [pubEq]

theorem C7_witness :
    Publication.from_dict (Publication.to_dict { doi := "10.1000/182", citation := "Cite me" }) =
      some { doi := "10.1000/182", citation := "Cite me" } :=
  (C7_roundtrip "10.1000/182" "Cite me").1

/-- C9: the item-scoped and collection-scoped adapters are
observationally equivalent: every operation performs the same reads,
writes and deletes on the property store and the same appends and
removals on the link sequence. -/
theorem C9_adapters_observationally_equal :
    (∀ st d c p, ScientificCollectionExt.apply st d c p = ScientificItemExt.apply st d c p) ∧
    (∀ st, ScientificCollectionExt.get_doi st = ScientificItemExt.get_doi st) ∧
    (∀ st v, ScientificCollectionExt.set_doi st v = ScientificItemExt.set_doi st v) ∧
    (∀ st, ScientificCollectionExt.get_citation st = ScientificItemExt.get_citation st) ∧
    (∀ st v, ScientificCollectionExt.set_citation st v = ScientificItemExt.set_citation st v) ∧
    (∀ st, ScientificCollectionExt.get_publications st = ScientificItemExt.get_publications st) ∧
    (∀ st v, ScientificCollectionExt.set_publications st v = ScientificItemExt.set_publications st v) ∧
    (∀ st pub, ScientificCollectionExt.remove_publication st pub = ScientificItemExt.remove_publication st pub) :=
  ⟨fun _ _ _ _ => rfl, fun _ => rfl, fun _ _ => rfl, fun _ => rfl, fun _ _ => rfl,
    fun _ => rfl, fun _ _ => rfl, fun _ _ => rfl⟩

/-! ## Helper lemmas: adapter effects on the property bag -/

theorem set_publications_properties (st : HostState) (v : List Publication) :
    (ScientificItemExt.set_publications st v).properties =
      bagSet st.properties PUBLICATIONS (PropVal.vPubs (v.map Publication.to_dict)) := by
  unfold ScientificItemExt.set_publications
  rw [foldl_add_link_properties]

theorem set_doi_properties (st : HostState) (v : String) :
    (ScientificItemExt.set_doi st v).properties = bagSet st.properties DOI (PropVal.vStr v) := rfl

theorem set_citation_properties (st : HostState) (v : String) :
    (ScientificItemExt.set_citation st v).properties =
      bagSet st.properties CITATION (PropVal.vStr v) := rfl

theorem set_citation_links (st : HostState) (v : String) :
    (ScientificItemExt.set_citation st v).links = st.links := rfl

/-! ## C1: invariant I2 -/

/-- Invariant I2 on a host state: when `sci:publications` is present in
the bag, its value is a non-empty sequence of mappings. -/
def I2 (st : HostState) : Bool :=
  match bagGet st.properties PUBLICATIONS with
  | none => true
  | some (PropVal.vPubs l) => !l.isEmpty
  | some (PropVal.vStr _) => false

theorem I2_of_props_eq (st1 st2 : HostState)
    (h : bagGet st1.properties PUBLICATIONS = bagGet st2.properties PUBLICATIONS) :
    I2 st1 = I2 st2 := by
  unfold I2
  rw [h]

theorem I2_set_doi (st : HostState) (v : String) :
    I2 (ScientificItemExt.set_doi st v) = I2 st := by
  apply I2_of_props_eq
  rw [set_doi_properties]
  exact bagGet_bagSet_ne _ _ _ _ (by decide)

theorem I2_set_citation (st : HostState) (v : String) :
    I2 (ScientificItemExt.set_citation st v) = I2 st := by
  apply I2_of_props_eq
  rw [set_citation_properties]
  exact bagGet_bagSet_ne _ _ _ _ (by decide)

theorem I2_set_publications (st : HostState) (v : List Publication) (hv : v ≠ []) :
    I2 (ScientificItemExt.set_publications st v) = true := by
  unfold I2
  rw [set_publications_properties, bagGet_bagSet_same]
  cases v with
  | nil => exact absurd rfl hv
  | cons hd tl => simp

theorem I2_remove_publication (st : HostState) (pub : Option Publication) (h : I2 st = true) :
    I2 (ScientificItemExt.remove_publication st pub).state = true := by
  unfold ScientificItemExt.remove_publication
  split
  · exact h
  · split
    · split
      · exact h
      · simp only [RemoveOutcome.state]
        unfold I2
        rw [foldl_remove_link_properties, bagGet_bagDel_same]
    · dsimp only
      split
      · split
        · simp only [RemoveOutcome.state]
          unfold I2
          rw [bagGet_bagDel_same]
        · simp only [RemoveOutcome.state]
          unfold I2
          rw [bagGet_bagSet_same]
          rename_i hne
          cases hres : removeFirst (ScientificItemExt.pubsRaw _) (Publication.to_dict _) with
          | nil => exact absurd hres hne
          | cons a b => simp
      · exact h

theorem I2_applyStep1 (st : HostState) (d : Option String) (h : I2 st = true) :
    I2 (match d with
        | some s => if s = "" then st else ScientificItemExt.set_doi st s
        | none => st) = true := by
  match d with
  | none => exact h
  | some s =>
    by_cases hs : s = ""
    · simpa [hs] using h
    · simpa [hs, I2_set_doi] using h

theorem I2_applyStep2 (st : HostState) (c : Option String) (h : I2 st = true) :
    I2 (match c with
        | some s => if s = "" then st else ScientificItemExt.set_citation st s
        | none => st) = true := by
  match c with
  | none => exact h
  | some s =>
    by_cases hs : s = ""
    · simpa [hs] using h
    · simpa [hs, I2_set_citation] using h

theorem I2_applyStep3 (st : HostState) (p : Option (List Publication)) (h : I2 st = true) :
    I2 (match p with
        | some l => if l = [] then st else ScientificItemExt.set_publications st l
        | none => st) = true := by
  match p with
  | none => exact h
  | some l =>
    by_cases hl : l = []
    · simpa [hl] using h
    · simpa [hl] using I2_set_publications st l hl

theorem I2_apply (st : HostState) (d c : Option String) (p : Option (List Publication))
    (h : I2 st = true) : I2 (ScientificItemExt.apply st d c p) = true := by
  unfold ScientificItemExt.apply
  exact I2_applyStep3 _ p (I2_applyStep2 _ c (I2_applyStep1 st d h))

/-- C1 counterexample: `set publications` with the empty list is an
adapter operation that leaves `sci:publications` present in the field
bag with an empty sequence as value, so invariant I2 does not survive
every adapter operation. -/
theorem C1_counterexample :
    bagGet (ScientificItemExt.set_publications { properties := [], links := [] } []).properties
        PUBLICATIONS = some (PropVal.vPubs []) ∧
    I2 (ScientificItemExt.set_publications { properties := [], links := [] } []) = false := by
  decide

/-- C1 (amended): I2 is preserved by `set publications` with a
*non-empty* list, by `remove_publication` (with or without an explicit
publication, in every outcome), and by `apply` with any arguments;
`set publications` with the empty list stores an empty sequence and is
the one adapter operation that violates I2. -/
theorem C1_I2_preserved (st : HostState) (h : I2 st = true) :
    (∀ v : List Publication, v ≠ [] → I2 (ScientificItemExt.set_publications st v) = true) ∧
    (∀ pub : Option Publication,
      I2 (ScientificItemExt.remove_publication st pub).state = true) ∧
    (∀ d c : Option String, ∀ p : Option (List Publication),
      I2 (ScientificItemExt.apply st d c p) = true) :=
  ⟨fun v hv => I2_set_publications st v hv,
   fun pub => I2_remove_publication st pub h,
   fun d c p => I2_apply st d c p h⟩

theorem C1_witness :
    I2 { properties := [], links := [] } = true ∧
    I2 (ScientificItemExt.set_publications { properties := [], links := [] }
        [{ doi := "10.1000/182", citation := "c" }]) = true :=
  ⟨by decide, (C1_I2_preserved { properties := [], links := [] } (by decide)).1
    [{ doi := "10.1000/182", citation := "c" }] (by decide)⟩

/-- C2: when `sci:publications` is stored but contains no element
serializing identically to `pub`, `remove_publication(pub)` raises the
not-found error (`ValueError` from `list.remove`), which propagates;
the field bag is unchanged and the link sequence has only undergone the
best-effort `remove_link` (no match removed, or exactly the first
matching `cite-as` link removed, with no rollback). -/
theorem C2_remove_not_found (st : HostState) (pub : Publication)
    (hkey : (bagGet st.properties PUBLICATIONS).isSome = true)
    (habs : Publication.to_dict pub ∉ ScientificItemExt.pubsRaw st) :
    ScientificItemExt.remove_publication st (some pub) =
      RemoveOutcome.notFound { st with links := remove_link st.links pub } ∧
    ((∀ l ∈ st.links, l.rel ≠ CITE_AS ∨ l.target ≠ doi_to_url pub.doi) →
      remove_link st.links pub = st.links) ∧
    (∀ l1 lk l2, st.links = l1 ++ lk :: l2 → lk.rel = CITE_AS →
      lk.target = doi_to_url pub.doi →
      (∀ x ∈ l1, x.rel ≠ CITE_AS ∨ x.target ≠ doi_to_url pub.doi) →
      remove_link st.links pub = l1 ++ l2) := by
  refine ⟨?_, fun hno => removeLinkGo_no_match _ _ hno,
    fun l1 lk l2 he h1 h2 h3 => by rw [he]; exact removeLinkGo_first l1 lk l2 _ h1 h2 h3⟩
  unfold ScientificItemExt.remove_publication
  rw [hkey]
  simp only [Bool.true_eq_false, if_false]
  exact if_neg habs

theorem C2_witness :
    (bagGet [(PUBLICATIONS, PropVal.vPubs [[("doi", "10.5555/2"), ("citation", "B")]])]
        PUBLICATIONS).isSome = true ∧
    ScientificItemExt.remove_publication
        { properties := [(PUBLICATIONS, PropVal.vPubs [[("doi", "10.5555/2"), ("citation", "B")]])],
          links := [Link.mk "cite-as" (doi_to_url "10.9999/x")] }
        (some { doi := "10.9999/x", citation := "Z" }) =
      RemoveOutcome.notFound
        { properties := [(PUBLICATIONS, PropVal.vPubs [[("doi", "10.5555/2"), ("citation", "B")]])],
          links := remove_link [Link.mk "cite-as" (doi_to_url "10.9999/x")]
            { doi := "10.9999/x", citation := "Z" } } :=
  ⟨by decide, (C2_remove_not_found _ _ (by decide) (by decide)).1⟩

/-! ## Frame lemmas for `apply` (C8) -/

theorem set_doi_citation_frame (st : HostState) (v : String) :
    bagGet (ScientificItemExt.set_doi st v).properties CITATION =
      bagGet st.properties CITATION :=
  bagGet_bagSet_ne st.properties DOI CITATION (PropVal.vStr v) (by decide)

theorem set_doi_pubs_frame (st : HostState) (v : String) :
    bagGet (ScientificItemExt.set_doi st v).properties PUBLICATIONS =
      bagGet st.properties PUBLICATIONS :=
  bagGet_bagSet_ne st.properties DOI PUBLICATIONS (PropVal.vStr v) (by decide)

theorem set_citation_doi_frame (st : HostState) (v : String) :
    bagGet (ScientificItemExt.set_citation st v).properties DOI =
      bagGet st.properties DOI :=
  bagGet_bagSet_ne st.properties CITATION DOI (PropVal.vStr v) (by decide)

theorem set_citation_pubs_frame (st : HostState) (v : String) :
    bagGet (ScientificItemExt.set_citation st v).properties PUBLICATIONS =
      bagGet st.properties PUBLICATIONS :=
  bagGet_bagSet_ne st.properties CITATION PUBLICATIONS (PropVal.vStr v) (by decide)

theorem set_publications_doi_frame (st : HostState) (v : List Publication) :
    bagGet (ScientificItemExt.set_publications st v).properties DOI =
      bagGet st.properties DOI := by
  rw [set_publications_properties]
  exact bagGet_bagSet_ne _ _ _ _ (by decide)

theorem set_publications_citation_frame (st : HostState) (v : List Publication) :
    bagGet (ScientificItemExt.set_publications st v).properties CITATION =
      bagGet st.properties CITATION := by
  rw [set_publications_properties]
  exact bagGet_bagSet_ne _ _ _ _ (by decide)

/-- C8: `apply` runs a setter only for truthy arguments: an absent or
empty-string `doi`/`citation` and an absent or empty-list
`publications` leave the corresponding `sci:` field unchanged, and when
both `doi` and `publications` are falsy the link sequence is unchanged
(in particular `apply` can never clear a field); identical for both
adapter variants. -/
theorem C8_apply_skips_falsy (st : HostState) (d c : Option String)
    (p : Option (List Publication)) :
    (ScientificCollectionExt.apply st d c p = ScientificItemExt.apply st d c p) ∧
    ((d = none ∨ d = some "") →
      bagGet (ScientificItemExt.apply st d c p).properties DOI = bagGet st.properties DOI) ∧
    ((c = none ∨ c = some "") →
      bagGet (ScientificItemExt.apply st d c p).properties CITATION =
        bagGet st.properties CITATION) ∧
    ((p = none ∨ p = some []) →
      bagGet (ScientificItemExt.apply st d c p).properties PUBLICATIONS =
        bagGet st.properties PUBLICATIONS) ∧
    ((d = none ∨ d = some "") → (p = none ∨ p = some []) →
      (ScientificItemExt.apply st d c p).links = st.links) := by
  refine ⟨rfl, ?_, ?_, ?_, ?_⟩
  · intro hd
    rcases hd with rfl | rfl <;> cases c <;> cases p <;>
      simp only [ScientificItemExt.apply] <;> (try split_ifs) <;>
      simp [set_citation_doi_frame, set_publications_doi_frame]
  · intro hc
    rcases hc with rfl | rfl <;> cases d <;> cases p <;>
      simp only [ScientificItemExt.apply] <;> (try split_ifs) <;>
      simp [set_doi_citation_frame, set_publications_citation_frame]
  · intro hp
    rcases hp with rfl | rfl <;> cases d <;> cases c <;>
      simp only [ScientificItemExt.apply] <;> (try split_ifs) <;>
      simp [set_doi_pubs_frame, set_citation_pubs_frame]
  · intro hd hp
    rcases hd with rfl | rfl <;> rcases hp with rfl | rfl <;> cases c <;>
      simp only [ScientificItemExt.apply] <;> (try split_ifs) <;>
      simp [set_citation_links]

theorem C8_witness :
    ((none : Option String) = none ∨ (none : Option String) = some "") ∧
    bagGet (ScientificItemExt.apply
        { properties := [(DOI, PropVal.vStr "10.1000/182")], links := [] }
        none (some "Cite") (some [])).properties DOI =
      bagGet [(DOI, PropVal.vStr "10.1000/182")] DOI :=
  ⟨Or.inl rfl,
   (C8_apply_skips_falsy { properties := [(DOI, PropVal.vStr "10.1000/182")], links := [] }
     none (some "Cite") (some [])).2.1 (Or.inl rfl)⟩

/-! ## C10: duplicate publications -/

theorem bagGet_of_pubsRaw_ne_nil (st : HostState)
    (h : ScientificItemExt.pubsRaw st ≠ []) :
    bagGet st.properties PUBLICATIONS =
      some (PropVal.vPubs (ScientificItemExt.pubsRaw st)) := by
  unfold ScientificItemExt.pubsRaw at h ⊢
  cases hbg : bagGet st.properties PUBLICATIONS with
  | none => rw [hbg] at h; exact absurd rfl h
  | some v =>
    cases v with
    | vStr s => rw [hbg] at h; exact absurd rfl h
    | vPubs l => rfl

/-- C10 (implicit): when the stored `sci:publications` sequence contains
the serialization of `pub` more than once, `remove_publication(pub)`
removes exactly the first matching mapping (later duplicates stay) and
runs the link synchronizer once, which removes exactly the first
matching `cite-as` link. -/
theorem C10_remove_first_duplicate (st : HostState) (pub : Publication)
    (l1 l2 : List (List (String × String)))
    (hstored : ScientificItemExt.pubsRaw st = l1 ++ Publication.to_dict pub :: l2)
    (hfirst : Publication.to_dict pub ∉ l1)
    (hdup : Publication.to_dict pub ∈ l2) :
    ScientificItemExt.remove_publication st (some pub) =
      RemoveOutcome.ok
        { properties := bagSet st.properties PUBLICATIONS (PropVal.vPubs (l1 ++ l2)),
          links := remove_link st.links pub } ∧
    (∀ L1 lk L2, st.links = L1 ++ lk :: L2 → lk.rel = CITE_AS →
      lk.target = doi_to_url pub.doi →
      (∀ x ∈ L1, x.rel ≠ CITE_AS ∨ x.target ≠ doi_to_url pub.doi) →
      remove_link st.links pub = L1 ++ L2) := by
  refine ⟨?_, fun L1 lk L2 he h1 h2 h3 => by
    rw [he]; exact removeLinkGo_first L1 lk L2 _ h1 h2 h3⟩
  have hne : ScientificItemExt.pubsRaw st ≠ [] := by
    rw [hstored]; simp
  have hkey : (bagGet st.properties PUBLICATIONS).isSome = true := by
    rw [bagGet_of_pubsRaw_ne_nil st hne]; rfl
  have hst2 : ScientificItemExt.pubsRaw
      { properties := st.properties, links := remove_link st.links pub } =
        l1 ++ Publication.to_dict pub :: l2 := hstored
  unfold ScientificItemExt.remove_publication
  rw [hkey]
  simp only [Bool.true_eq_false, if_false]
  rw [hst2]
  rw [if_pos (by simp : Publication.to_dict pub ∈ l1 ++ Publication.to_dict pub :: l2)]
  rw [removeFirst_not_mem_append l1 l2 (Publication.to_dict pub) hfirst]
  rw [if_neg (fun h0 => List.ne_nil_of_mem hdup (List.append_eq_nil.mp h0).2)]

theorem C10_witness :
    (ScientificItemExt.pubsRaw
        { properties := [(PUBLICATIONS, PropVal.vPubs
            [[("doi", "10.9"), ("citation", "x")], [("doi", "10.5"), ("citation", "a")],
              [("doi", "10.5"), ("citation", "a")]])],
          links := [Link.mk "cite-as" (doi_to_url "10.5"), Link.mk "cite-as" (doi_to_url "10.5")] } =
      [[("doi", "10.9"), ("citation", "x")]] ++
        Publication.to_dict { doi := "10.5", citation := "a" } ::
          [[("doi", "10.5"), ("citation", "a")]]) ∧
    ScientificItemExt.remove_publication
        { properties := [(PUBLICATIONS, PropVal.vPubs
            [[("doi", "10.9"), ("citation", "x")], [("doi", "10.5"), ("citation", "a")],
              [("doi", "10.5"), ("citation", "a")]])],
          links := [Link.mk "cite-as" (doi_to_url "10.5"), Link.mk "cite-as" (doi_to_url "10.5")] }
        (some { doi := "10.5", citation := "a" }) =
      RemoveOutcome.ok
        { properties := bagSet
            [(PUBLICATIONS, PropVal.vPubs
              [[("doi", "10.9"), ("citation", "x")], [("doi", "10.5"), ("citation", "a")],
                [("doi", "10.5"), ("citation", "a")]])]
            PUBLICATIONS
            (PropVal.vPubs
              [[("doi", "10.9"), ("citation", "x")], [("doi", "10.5"), ("citation", "a")]]),
          links := remove_link
            [Link.mk "cite-as" (doi_to_url "10.5"), Link.mk "cite-as" (doi_to_url "10.5")]
            { doi := "10.5", citation := "a" } } :=
  ⟨by decide,
   (C10_remove_first_duplicate _ { doi := "10.5", citation := "a" }
     [[("doi", "10.9"), ("citation", "x")]] [[("doi", "10.5"), ("citation", "a")]]
     (by decide) (by decide) (by decide)).1⟩

/-! ## C5: declarative characterization of the DOI regex -/

/-- Tail of a DOI after `10.` and the four digits, as the spec words it
(amended): zero or more groups of `.` plus digits, then `/`, then at
least one character matched by Python `.` (any character except a line
feed). -/
inductive GroupsThenSlash : List Char → Prop
  | slash (e : Char) (rest : List Char) (he : e ≠ '\n') :
      GroupsThenSlash ('/' :: e :: rest)
  | group (ds : List Char) (hne : ds ≠ []) (hds : ∀ x ∈ ds, x.isDigit = true)
      (rest : List Char) (h : GroupsThenSlash rest) :
      GroupsThenSlash ('.' :: (ds ++ rest))

theorem gts_head (r : List Char) (h : GroupsThenSlash r) :
    ∃ c t, r = c :: t ∧ (c = '/' ∨ c = '.') := by
  cases h with
  | slash e rest he => exact ⟨'/', e :: rest, rfl, Or.inl rfl⟩
  | group ds hne hds rest hr => exact ⟨'.', ds ++ rest, rfl, Or.inr rfl⟩

theorem groupsScan_afterDigit_of_not_digit (c : Char) (t : List Char)
    (hc : c.isDigit = false) :
    groupsScan GMode.afterDigit (c :: t) = groupsScan GMode.start (c :: t) := by
  rw [groupsScan.eq_def, groupsScan.eq_def]
  simp [hc]

theorem groupsScan_digits (t rest : List Char) (ht : ∀ x ∈ t, x.isDigit = true) :
    groupsScan GMode.afterDigit (t ++ rest) = groupsScan GMode.afterDigit rest := by
  induction t with
  | nil => rfl
  | cons x t2 ih =>
    have hx : x.isDigit = true := ht x (by simp)
    have ht2 : ∀ y ∈ t2, y.isDigit = true := fun y hy => ht y (by simp [hy])
    simp only [List.cons_append]
    rw [groupsScan.eq_def]
    simp [hx, ih ht2]

theorem gts_scan (r : List Char) (h : GroupsThenSlash r) :
    ∃ e t, groupsScan GMode.start r = '/' :: e :: t ∧ e ≠ '\n' := by
  induction h with
  | slash e rest he =>
    exact ⟨e, rest, rfl, he⟩
  | group ds hne hds rest hr ih =>
    obtain ⟨e, t, hscan, he⟩ := ih
    refine ⟨e, t, ?_, he⟩
    cases ds with
    | nil => exact absurd rfl hne
    | cons d ds2 =>
      have hd : d.isDigit = true := hds d (by simp)
      have hds2 : ∀ x ∈ ds2, x.isDigit = true := fun x hx => hds x (by simp [hx])
      obtain ⟨c0, t0, hr0, hc0⟩ := gts_head rest hr
      have hnd : c0.isDigit = false := by
        rcases hc0 with rfl | rfl <;> decide
      calc groupsScan GMode.start ('.' :: (d :: ds2 ++ rest))
          = groupsScan GMode.afterDigit (ds2 ++ rest) := by
            simp only [List.cons_append]
            rw [groupsScan.eq_def]
            simp [hd]
        _ = groupsScan GMode.afterDigit rest := groupsScan_digits ds2 rest hds2
        _ = groupsScan GMode.start rest := by
            rw [hr0]
            exact groupsScan_afterDigit_of_not_digit c0 t0 hnd
        _ = '/' :: e :: t := hscan

theorem scan_sound (n : Nat) : ∀ (r : List Char), r.length ≤ n → ∀ (e : Char) (t : List Char),
    e ≠ '\n' →
    (groupsScan GMode.start r = '/' :: e :: t → GroupsThenSlash r) ∧
    (groupsScan GMode.afterDigit r = '/' :: e :: t →
      ∃ ds rest, r = ds ++ rest ∧ (∀ x ∈ ds, x.isDigit = true) ∧ GroupsThenSlash rest) := by
  induction n with
  | zero =>
    intro r hlen e t he
    have hr : r = [] := List.length_eq_zero.mp (Nat.le_zero.mp hlen)
    subst hr
    exact ⟨fun hsc => List.noConfusion (show ([] : List Char) = '/' :: e :: t from hsc),
      fun hsc => List.noConfusion (show ([] : List Char) = '/' :: e :: t from hsc)⟩
  | succ n ihn =>
    intro r hlen e t he
    cases r with
    | nil =>
      exact ⟨fun hsc => List.noConfusion (show ([] : List Char) = '/' :: e :: t from hsc),
        fun hsc => List.noConfusion (show ([] : List Char) = '/' :: e :: t from hsc)⟩
    | cons c rest =>
      have hrest : rest.length ≤ n := by
        simp only [List.length_cons] at hlen
        omega
      have hstart : groupsScan GMode.start (c :: rest) = '/' :: e :: t →
          GroupsThenSlash (c :: rest) := by
        intro hsc
        by_cases hc : c = '.'
        · subst hc
          cases rest with
          | nil =>
            have h1 : ['.'] = '/' :: e :: t := hsc
            injection h1 with h2 h3
            exact List.noConfusion h3
          | cons d r2 =>
            by_cases hd : d.isDigit = true
            · have h0 : groupsScan GMode.start ('.' :: d :: r2) =
                  groupsScan GMode.afterDigit r2 := by
                rw [groupsScan.eq_def]
                simp [hd]
              rw [h0] at hsc
              have hr2 : r2.length ≤ n := by
                simp only [List.length_cons] at hlen
                omega
              obtain ⟨ds, rest2, hrw, hds, hgts⟩ := (ihn r2 hr2 e t he).2 hsc
              have hall : ∀ x ∈ d :: ds, x.isDigit = true := by
                intro x hx
                rcases List.mem_cons.mp hx with rfl | hx2
                · exact hd
                · exact hds x hx2
              have hshape : ('.' :: d :: r2) = '.' :: ((d :: ds) ++ rest2) := by
                rw [hrw]
                rfl
              rw [hshape]
              exact GroupsThenSlash.group (d :: ds) (by simp) hall rest2 hgts
            · have h0 : groupsScan GMode.start ('.' :: d :: r2) = '.' :: d :: r2 := by
                rw [groupsScan.eq_def]
                simp [hd]
              rw [h0] at hsc
              injection hsc with h1 h2
              exact absurd h1 (by decide)
        · have h0 : groupsScan GMode.start (c :: rest) = c :: rest := by
            rw [groupsScan.eq_def]
            simp [hc]
          rw [h0] at hsc
          injection hsc with h1 h2
          subst h1
          subst h2
          exact GroupsThenSlash.slash e t he
      refine ⟨hstart, ?_⟩
      intro hsc
      by_cases hcd : c.isDigit = true
      · have h0 : groupsScan GMode.afterDigit (c :: rest) =
            groupsScan GMode.afterDigit rest := by
          rw [groupsScan.eq_def]
          simp [hcd]
        rw [h0] at hsc
        obtain ⟨ds, rest2, hrw, hds, hgts⟩ := (ihn rest hrest e t he).2 hsc
        refine ⟨c :: ds, rest2, ?_, ?_, hgts⟩
        · rw [hrw]
          rfl
        · intro x hx
          rcases List.mem_cons.mp hx with rfl | hx2
          · exact hcd
          · exact hds x hx2
      · have hcd2 : c.isDigit = false := by
          simpa using hcd
        rw [groupsScan_afterDigit_of_not_digit c rest hcd2] at hsc
        exact ⟨[], c :: rest, rfl, by simp, hstart hsc⟩

/-- The pattern the spec describes for a valid DOI, amended with the
newline restriction Python's `.` imposes: `10.`, exactly four digits,
zero or more `.`-plus-digits groups, `/`, then at least one character
that is not a line feed, with arbitrary trailing content. -/
def DoiPattern (s : String) : Prop :=
  ∃ (a b c d : Char) (r : List Char),
    s.data = '1' :: '0' :: '.' :: a :: b :: c :: d :: r ∧
    a.isDigit = true ∧ b.isDigit = true ∧ c.isDigit = true ∧ d.isDigit = true ∧
    GroupsThenSlash r

/-- C5 counterexample: the string `10.1000/` followed by a line feed is
literally `10.` + four digits + (zero groups) + `/` + one character —
it matches the pattern as the claim states it — yet `is_doi_valid`
returns `false`, because Python's `.` does not match a line feed. -/
theorem C5_counterexample :
    "10.1000/" ++ String.mk ['\n'] = "10." ++ "1000" ++ "/" ++ String.mk ['\n'] ∧
    (∀ x ∈ "1000".data, x.isDigit = true) ∧
    (String.mk ['\n']).data ≠ [] ∧
    is_doi_valid ("10.1000/" ++ String.mk ['\n']) = false := by
  decide

/-- C5 (amended): `is_doi_valid(doi)` is true exactly when `doi` starts
with `10.`, exactly four digits, zero or more `.`-digits groups, `/`,
and at least one further character *that is not a line feed* (trailing
content permitted); the claim's three concrete cases hold. -/
theorem C5_is_doi_valid (s : String) :
    (is_doi_valid s = true ↔ DoiPattern s) ∧
    is_doi_valid "10.1000/182" = true ∧
    is_doi_valid "not-a-doi" = false ∧
    is_doi_valid "10.1/182" = false := by
  refine ⟨⟨?_, ?_⟩, by decide, by decide, by decide⟩
  · intro h
    unfold is_doi_valid at h
    split at h
    · rename_i a b c d rest heq
      simp only [Bool.and_eq_true] at h
      obtain ⟨⟨⟨⟨ha, hb⟩, hc⟩, hd⟩, hm⟩ := h
      split at hm
      · rename_i e rest2 heq2
        have he : e ≠ '\n' := by
          simpa using hm
        have hg : GroupsThenSlash rest :=
          (scan_sound rest.length rest le_rfl e rest2 he).1 heq2
        exact ⟨a, b, c, d, rest, heq, ha, hb, hc, hd, hg⟩
      · exact absurd hm (by simp)
    · exact absurd h (by simp)
  · rintro ⟨a, b, c, d, r, heq, ha, hb, hc, hd, hg⟩
    obtain ⟨e, t2, hscan, he⟩ := gts_scan r hg
    unfold is_doi_valid
    rw [heq]
    show (a.isDigit && b.isDigit && c.isDigit && d.isDigit &&
      (match groupsScan GMode.start r with
       | '/' :: e :: _ => e != '\n'
       | _ => false)) = true
    rw [ha, hb, hc, hd, hscan]
    show (true && true && true && true && (e != '\n')) = true
    simp [he]

theorem C5_witness : is_doi_valid "10.1000/182" = true :=
  (C5_is_doi_valid "10.1000/182").2.1
